import Mathlib

/-!
Verification of the weekly-statistics core of the club/alliance monitoring bot.

The development shallowly embeds the relevant source functions:

- weekly_stats.py: get_week_start, get_week_end, compute_stats_hash,
  save_weekly_contributions, get_pinned_message_info, save_pinned_message_info,
  send_or_update_weekly_pinned;
- alliance_weekly_stats.py: compute_alliance_hash, upsert_alliance_contributions,
  get_alliance_week_rows, get_pinned_alliance_message, save_pinned_alliance_message,
  send_or_update_alliance_pinned;
- alliance_parser.py: the contribution-initialisation step of alliance_monitor_loop;
- parser.py: the consecutive-failure branch of parse_loop;
- main.py: the wiring of bot_data; proxy_manager.py: ProxyManager.mark_failure.

Python standard-library collaborators are modelled faithfully where the claims
depend on them: dates and timedelta arithmetic are modelled by the proleptic
Gregorian ordinal algorithms used by the datetime module itself (tables
_DAYS_BEFORE_MONTH and _DAYS_IN_MONTH, functions _ymd2ord and _ord2ymd), and
hashlib.md5 is modelled by a full MD5 implementation (RFC 1321).  The SQLite
tables are modelled as lists of rows; INSERT ... ON CONFLICT DO UPDATE becomes
an in-place update of the row with the conflicting key.  The Telegram transport
is modelled by a world of messages plus injectable transport faults.
-/

set_option maxHeartbeats 1000000

/-!
## Week clock (weekly_stats.py lines 32-43)

The source represents dates as datetime.date values and week keys as ISO
strings; since date.isoformat and datetime.strptime are mutually inverse
injections, the string layer is modelled as the identity and a date is the
structure below.  Python date arithmetic (date minus timedelta, weekday) is
defined through toordinal / fromordinal, which we reproduce exactly.
-/

structure Date where
  year : Int
  month : Int
  day : Int
deriving DecidableEq

/-- Leap-year test, as in datetime._is_leap. -/
def isLeap (y : Int) : Prop := y % 4 = 0 ∧ (y % 100 ≠ 0 ∨ y % 400 = 0)

instance decIsLeap (y : Int) : Decidable (isLeap y) := by
  unfold isLeap
  infer_instance

/-- Table datetime._DAYS_BEFORE_MONTH: days before the first of month m in a
non-leap year. -/
def dbm (m : Int) : Int :=
  if m = 1 then 0 else if m = 2 then 31 else if m = 3 then 59 else if m = 4 then 90
  else if m = 5 then 120 else if m = 6 then 151 else if m = 7 then 181 else if m = 8 then 212
  else if m = 9 then 243 else if m = 10 then 273 else if m = 11 then 304 else 334

/-- Table datetime._DAYS_IN_MONTH (non-leap year). -/
def dim (m : Int) : Int :=
  if m = 2 then 28 else if m = 4 ∨ m = 6 ∨ m = 9 ∨ m = 11 then 30 else 31

/-- Days strictly before January 1 of year y, as in datetime._days_before_year. -/
def daysBeforeYear (y : Int) : Int :=
  (y - 1) * 365 + (y - 1) / 4 - (y - 1) / 100 + (y - 1) / 400

/-- Proleptic Gregorian ordinal of a date (0001-01-01 is ordinal 1), as in
datetime._ymd2ord. -/
def toOrdinal (dt : Date) : Int :=
  daysBeforeYear dt.year + dbm dt.month + (if 2 < dt.month ∧ isLeap dt.year then 1 else 0) +
    dt.day

/-- Body of datetime._ord2ymd after the four divmod steps: n400, n100, n4 and n1
count the 400-, 100-, 4- and 1-year cycles consumed, n is the remaining day
index inside the year. -/
def ord2ymdCore (n400 n100 n4 n1 n : Int) : Date :=
  let year : Int := n400 * 400 + 1 + n100 * 100 + n4 * 4 + n1
  if n1 = 4 ∨ n100 = 4 then ⟨year - 1, 12, 31⟩
  else
    let leap : Prop := n1 = 3 ∧ (n4 ≠ 24 ∨ n100 = 3)
    let month : Int := (n + 50) / 32
    let preceding : Int := dbm month + (if 2 < month ∧ leap then 1 else 0)
    if n < preceding then
      ⟨year, month - 1,
        n - (preceding - (dim (month - 1) + (if month - 1 = 2 ∧ leap then 1 else 0))) + 1⟩
    else ⟨year, month, n - preceding + 1⟩

/-- Date with the given proleptic Gregorian ordinal, as in datetime._ord2ymd. -/
def fromOrdinal (n0 : Int) : Date :=
  let k : Int := n0 - 1
  let r400 : Int := k % 146097
  let r100 : Int := r400 % 36524
  let r4 : Int := r100 % 1461
  ord2ymdCore (k / 146097) (r400 / 36524) (r100 / 1461) (r4 / 365) (r4 % 365)

/-- Key fact about the calendar model: converting an ordinal to a calendar date
and back is the identity, for every integer ordinal. -/
theorem core_round (n400 n100 n4 n1 n n0 : Int)
    (h : n0 - 1 = 146097 * n400 + 36524 * n100 + 1461 * n4 + 365 * n1 + n)
    (hb100 : 0 ≤ n100 ∧ n100 ≤ 4) (hb4 : 0 ≤ n4 ∧ n4 ≤ 24) (hb1 : 0 ≤ n1 ∧ n1 ≤ 4)
    (hn : 0 ≤ n ∧ n < 365)
    (hs1 : n1 = 4 → n = 0) (hs100 : n100 = 4 → n4 = 0 ∧ n1 = 0 ∧ n = 0)
    (hs4 : n4 = 24 → n1 ≤ 3) :
    toOrdinal (ord2ymdCore n400 n100 n4 n1 n) = n0 := by
  rw [ord2ymdCore]
  split
  case isTrue hsp =>
    have hL : isLeap (n400 * 400 + 1 + n100 * 100 + n4 * 4 + n1 - 1) := by
      unfold isLeap
      omega
    simp only [toOrdinal, daysBeforeYear]
    norm_num [dbm]
    rw [if_pos hL]
    omega
  case isFalse hsp =>
    dsimp only
    obtain ⟨m0, hm0⟩ : ∃ m0, (n + 50) / 32 = m0 := ⟨_, rfl⟩
    rw [hm0]
    have hm1 : 1 ≤ m0 := by omega
    have hm2 : m0 ≤ 12 := by omega
    interval_cases m0 <;>
      (norm_num [dbm, dim]
       split_ifs <;>
         (simp only [toOrdinal, daysBeforeYear]
          norm_num [dbm]
          try split_ifs
          all_goals simp only [isLeap] at *
          all_goals omega))

theorem toOrdinal_fromOrdinal (n0 : Int) : toOrdinal (fromOrdinal n0) = n0 := by
  rw [fromOrdinal]
  apply core_round <;> omega

/-- Python date.weekday: zero on Mondays through six on Sundays. -/
def pyWeekday (d : Date) : Int := (toOrdinal d + 6) % 7

/-- weekly_stats.get_week_start: the Monday of the week containing the given
instant (the source subtracts timedelta(days = dt.weekday()) from dt.date();
time-of-day does not influence either operand, so the argument is a Date). -/
def get_week_start (d : Date) : Date := fromOrdinal (toOrdinal d - pyWeekday d)

/-- weekly_stats.get_week_end: the Sunday of the week, week_start plus six
days (the source parses the ISO string and adds timedelta(days=6)). -/
def get_week_end (ws : Date) : Date := fromOrdinal (toOrdinal ws + 6)

/-- C9: timestamps in the same Monday-to-Sunday window share a week_start,
which is the date of that window's Monday, and week_end of any week_start is
exactly six days later; the statement quantifies over all dates, so month,
year and leap-year boundaries are covered. -/
theorem C9_week_clock (m : Int) (t1 t2 : Date)
    (hmon : (m + 6) % 7 = 0)
    (h1a : m ≤ toOrdinal t1) (h1b : toOrdinal t1 < m + 7)
    (h2a : m ≤ toOrdinal t2) (h2b : toOrdinal t2 < m + 7) :
    (get_week_start t1 = get_week_start t2 ∧
      get_week_start t1 = fromOrdinal m ∧
      toOrdinal (get_week_start t1) = m ∧
      pyWeekday (get_week_start t1) = 0) ∧
    ∀ t : Date, toOrdinal (get_week_end (get_week_start t)) = toOrdinal (get_week_start t) + 6 := by
  have key : ∀ t : Date, m ≤ toOrdinal t → toOrdinal t < m + 7 →
      get_week_start t = fromOrdinal m := by
    intro t ha hb
    have : toOrdinal t - pyWeekday t = m := by
      simp only [pyWeekday]
      omega
    rw [get_week_start, this]
  refine ⟨⟨?_, key t1 h1a h1b, ?_, ?_⟩, ?_⟩
  · rw [key t1 h1a h1b, key t2 h2a h2b]
  · rw [key t1 h1a h1b, toOrdinal_fromOrdinal]
  · rw [key t1 h1a h1b, pyWeekday, toOrdinal_fromOrdinal]
    omega
  · intro t
    rw [get_week_end, toOrdinal_fromOrdinal]

/-- Witness for C9 at a window crossing both a month boundary and a leap day:
the week of Monday 2024-02-26 (ordinal 738942) contains Wednesday 2024-02-28
and Sunday 2024-03-03. -/
theorem C9_week_clock_witness :
    (738942 + 6) % 7 = 0 ∧
    get_week_start ⟨2024, 2, 28⟩ = get_week_start ⟨2024, 3, 3⟩ ∧
    get_week_start ⟨2024, 2, 28⟩ = fromOrdinal 738942 ∧
    toOrdinal (get_week_start ⟨2024, 2, 28⟩) = 738942 ∧
    toOrdinal (get_week_end (get_week_start ⟨2024, 2, 28⟩)) =
      toOrdinal (get_week_start ⟨2024, 2, 28⟩) + 6 := by
  have h := C9_week_clock 738942 ⟨2024, 2, 28⟩ ⟨2024, 3, 3⟩ (by decide) (by decide)
    (by decide) (by decide) (by decide)
  exact ⟨by decide, h.1.1, h.1.2.1, h.1.2.2.1, h.2 ⟨2024, 2, 28⟩⟩

/-!
## Contribution ledger (alliance_weekly_stats.py lines 201-254, 175-186;
weekly_stats.py lines 183-212)

A table is a list of rows in insertion order; the autoincrement id column is
dropped (row identity is carried by the UNIQUE key (week_start, mangabuff_id)
plus the payload).  INSERT ... ON CONFLICT(week_start, mangabuff_id) DO UPDATE
becomes: update the row with the conflicting key in place, else append a fresh
row.  Upserting a whole record list is the sequential fold the source performs
inside one transaction.  The updated_at / recorded_at timestamp produced by
ts_for_db(now_msk()) is passed in as an opaque string.
-/

/-- A record parsed by parse_alliance_club_contributions (alliance_weekly_stats.py
lines 148-153). -/
structure AContribution where
  mangabuff_id : Int
  nick : String
  profile_url : String
  contribution : Int
deriving DecidableEq

/-- A row of the alliance_club_contributions table (alliance_weekly_stats.py
lines 67-79). -/
structure ARow where
  week_start : String
  mangabuff_id : Int
  nick : String
  profile_url : String
  contribution_baseline : Int
  contribution_current : Int
  updated_at : String
deriving DecidableEq

def keyA (w : String) (mid : Int) : ARow → Bool :=
  fun r => r.week_start == w && r.mangabuff_id == mid

def weekKeyA (w : String) : ARow → Bool := fun r => r.week_start == w

def findARow (tbl : List ARow) (w : String) (mid : Int) : Option ARow :=
  tbl.find? (keyA w mid)

/-- The DO UPDATE SET column list of upsert_alliance_contributions: with
is_new_week true the clause sets nick, contribution_baseline,
contribution_current and updated_at (lines 229-233); with is_new_week false it
sets only nick, contribution_current and updated_at (lines 246-249).
profile_url is never updated on conflict. -/
def applyA (is_new_week : Bool) (updated_at : String) (c : AContribution) (r : ARow) : ARow :=
  if is_new_week then
    { r with nick := c.nick, contribution_baseline := c.contribution,
             contribution_current := c.contribution, updated_at := updated_at }
  else
    { r with nick := c.nick, contribution_current := c.contribution, updated_at := updated_at }

/-- The VALUES tuple inserted when no row with the key exists (lines 224-228 and
241-245): baseline = current = the observed contribution. -/
def freshA (week_start updated_at : String) (c : AContribution) : ARow :=
  ⟨week_start, c.mangabuff_id, c.nick, c.profile_url, c.contribution, c.contribution, updated_at⟩

/-- One INSERT ... ON CONFLICT(week_start, mangabuff_id) DO UPDATE statement. -/
def upsertA (is_new_week : Bool) (week_start updated_at : String) (c : AContribution) :
    List ARow → List ARow
  | [] => [freshA week_start updated_at c]
  | r :: rs =>
    if keyA week_start c.mangabuff_id r then applyA is_new_week updated_at c r :: rs
    else r :: upsertA is_new_week week_start updated_at c rs

/-- alliance_weekly_stats.upsert_alliance_contributions: one statement per
record, executed in order. -/
def upsert_alliance_contributions (week_start : String) (contributions : List AContribution)
    (is_new_week : Bool) (updated_at : String) (tbl : List ARow) : List ARow :=
  contributions.foldl (fun t c => upsertA is_new_week week_start updated_at c t) tbl

/-- Stable insertion into a list sorted by contribution_current descending. -/
def insertByCurrent (r : ARow) : List ARow → List ARow
  | [] => [r]
  | x :: xs =>
    if r.contribution_current < x.contribution_current then x :: insertByCurrent r xs
    else r :: x :: xs

def sortByCurrentDesc (l : List ARow) : List ARow := l.foldr insertByCurrent []

/-- alliance_weekly_stats.get_alliance_week_rows: SELECT * WHERE week_start = ?
ORDER BY contribution_current DESC. -/
def get_alliance_week_rows (week_start : String) (tbl : List ARow) : List ARow :=
  sortByCurrentDesc (tbl.filter (weekKeyA week_start))

theorem keyA_true (w : String) (mid : Int) (r : ARow) :
    keyA w mid r = true ↔ r.week_start = w ∧ r.mangabuff_id = mid := by
  simp [keyA]

theorem weekKeyA_true (w : String) (r : ARow) : weekKeyA w r = true ↔ r.week_start = w := by
  simp [weekKeyA]

theorem mem_insertByCurrent (a r : ARow) (l : List ARow) :
    a ∈ insertByCurrent r l ↔ a = r ∨ a ∈ l := by
  induction l with
  | nil => simp [insertByCurrent]
  | cons x xs ih =>
    rw [insertByCurrent]
    split <;> simp only [List.mem_cons, ih] <;> tauto

theorem mem_sortByCurrentDesc (a : ARow) (l : List ARow) :
    a ∈ sortByCurrentDesc l ↔ a ∈ l := by
  induction l with
  | nil => simp [sortByCurrentDesc]
  | cons x xs ih =>
    simp only [sortByCurrentDesc, List.foldr_cons, List.mem_cons] at *
    rw [mem_insertByCurrent]
    tauto

theorem applyA_week (inw : Bool) (ts : String) (c : AContribution) (r : ARow) :
    (applyA inw ts c r).week_start = r.week_start := by
  rw [applyA]
  split <;> rfl

theorem applyA_id (inw : Bool) (ts : String) (c : AContribution) (r : ARow) :
    (applyA inw ts c r).mangabuff_id = r.mangabuff_id := by
  rw [applyA]
  split <;> rfl

theorem findARow_upsertA_ne (inw : Bool) (week ts w2 : String) (mid2 : Int)
    (c : AContribution) (tbl : List ARow)
    (hne : ¬(w2 = week ∧ mid2 = c.mangabuff_id)) :
    findARow (upsertA inw week ts c tbl) w2 mid2 = findARow tbl w2 mid2 := by
  induction tbl with
  | nil =>
    have h : ¬ keyA w2 mid2 (freshA week ts c) = true := by
      rw [keyA_true]
      exact fun hh => hne ⟨hh.1.symm, hh.2.symm⟩
    rw [upsertA, findARow, List.find?_cons_of_neg _ h]
    rfl
  | cons r rs ih =>
    rw [upsertA]
    split
    case isTrue hk =>
      have hk' := (keyA_true week c.mangabuff_id r).mp hk
      have h1 : ¬ keyA w2 mid2 (applyA inw ts c r) = true := by
        rw [keyA_true, applyA_week, applyA_id]
        exact fun hh => hne ⟨hh.1 ▸ hk'.1, hh.2 ▸ hk'.2⟩
      have h2 : ¬ keyA w2 mid2 r = true := by
        rw [keyA_true]
        exact fun hh => hne ⟨hh.1 ▸ hk'.1, hh.2 ▸ hk'.2⟩
      simp only [findARow]
      rw [List.find?_cons_of_neg _ h1, List.find?_cons_of_neg _ h2]
    case isFalse hk =>
      by_cases hp : keyA w2 mid2 r = true
      · simp only [findARow]
        rw [List.find?_cons_of_pos _ hp, List.find?_cons_of_pos _ hp]
      · simp only [findARow] at ih ⊢
        rw [List.find?_cons_of_neg _ hp, List.find?_cons_of_neg _ hp]
        exact ih

theorem findARow_upsertA_self (inw : Bool) (week ts : String) (c : AContribution)
    (tbl : List ARow) :
    findARow (upsertA inw week ts c tbl) week c.mangabuff_id =
      some (match findARow tbl week c.mangabuff_id with
            | some r => applyA inw ts c r
            | none => freshA week ts c) := by
  induction tbl with
  | nil =>
    have h : keyA week c.mangabuff_id (freshA week ts c) = true := by
      rw [keyA_true]
      exact ⟨rfl, rfl⟩
    rw [upsertA, findARow, List.find?_cons_of_pos _ h]
    rfl
  | cons r rs ih =>
    rw [upsertA]
    split
    case isTrue hk =>
      have hpos : keyA week c.mangabuff_id (applyA inw ts c r) = true := by
        rw [keyA_true, applyA_week, applyA_id]
        exact (keyA_true week c.mangabuff_id r).mp hk
      simp only [findARow]
      rw [List.find?_cons_of_pos _ hpos, List.find?_cons_of_pos _ hk]
    case isFalse hk =>
      simp only [findARow] at ih ⊢
      rw [List.find?_cons_of_neg _ hk, List.find?_cons_of_neg _ hk]
      exact ih

theorem mem_upsertA_of_ne (inw : Bool) (week ts : String) (c : AContribution)
    (tbl : List ARow) (r : ARow) (hr : r ∈ tbl)
    (hne : ¬(r.week_start = week ∧ r.mangabuff_id = c.mangabuff_id)) :
    r ∈ upsertA inw week ts c tbl := by
  induction tbl with
  | nil => cases hr
  | cons x xs ih =>
    rw [upsertA]
    rcases List.mem_cons.mp hr with h | h
    · split
      case isTrue hk =>
        have hk' := (keyA_true week c.mangabuff_id x).mp hk
        exact absurd ⟨h ▸ hk'.1, h ▸ hk'.2⟩ hne
      case isFalse hk => exact h ▸ List.mem_cons_self _ _
    · split
      · exact List.mem_cons_of_mem _ h
      · exact List.mem_cons_of_mem _ (ih h)

theorem filter_week_upsertA (inw : Bool) (week ts w2 : String) (c : AContribution)
    (tbl : List ARow) (hw : w2 ≠ week) :
    (upsertA inw week ts c tbl).filter (weekKeyA w2) = tbl.filter (weekKeyA w2) := by
  induction tbl with
  | nil =>
    have h : ¬ weekKeyA w2 (freshA week ts c) = true := by
      rw [weekKeyA_true]
      exact fun hh => hw hh.symm
    rw [upsertA, List.filter_cons, if_neg h]
  | cons r rs ih =>
    rw [upsertA]
    split
    case isTrue hk =>
      have hk' := (keyA_true week c.mangabuff_id r).mp hk
      have h1 : ¬ weekKeyA w2 (applyA inw ts c r) = true := by
        rw [weekKeyA_true, applyA_week]
        exact fun hh => hw (hh ▸ hk'.1)
      have h2 : ¬ weekKeyA w2 r = true := by
        rw [weekKeyA_true]
        exact fun hh => hw (hh ▸ hk'.1)
      rw [List.filter_cons, List.filter_cons, if_neg h1, if_neg h2]
    case isFalse hk =>
      rw [List.filter_cons, List.filter_cons]
      split <;> rw [ih]

theorem upsert_cons (week ts : String) (inw : Bool) (c : AContribution)
    (cs : List AContribution) (tbl : List ARow) :
    upsert_alliance_contributions week (c :: cs) inw ts tbl =
      upsert_alliance_contributions week cs inw ts (upsertA inw week ts c tbl) := rfl

theorem upsert_find_ne (week ts w2 : String) (mid2 : Int) (inw : Bool)
    (cs : List AContribution) (tbl : List ARow)
    (hne : ∀ c ∈ cs, ¬(w2 = week ∧ mid2 = c.mangabuff_id)) :
    findARow (upsert_alliance_contributions week cs inw ts tbl) w2 mid2 =
      findARow tbl w2 mid2 := by
  induction cs generalizing tbl with
  | nil => rfl
  | cons c cs ih =>
    rw [upsert_cons, ih _ (fun d hd => hne d (List.mem_cons_of_mem _ hd)),
      findARow_upsertA_ne _ _ _ _ _ _ _ (hne c (List.mem_cons_self _ _))]

theorem upsert_find_mem (week ts : String) (inw : Bool) (cs : List AContribution)
    (tbl : List ARow) (c : AContribution) (hc : c ∈ cs)
    (hnd : cs.Pairwise (fun a b => a.mangabuff_id ≠ b.mangabuff_id)) :
    findARow (upsert_alliance_contributions week cs inw ts tbl) week c.mangabuff_id =
      some (match findARow tbl week c.mangabuff_id with
            | some r => applyA inw ts c r
            | none => freshA week ts c) := by
  induction cs generalizing tbl with
  | nil => cases hc
  | cons c0 cs ih =>
    rw [List.pairwise_cons] at hnd
    rcases List.mem_cons.mp hc with h | h
    · subst h
      rw [upsert_cons,
        upsert_find_ne _ _ _ _ _ _ _ (fun d hd hcon => hnd.1 d hd (hcon.2)),
        findARow_upsertA_self]
    · rw [upsert_cons, ih _ h hnd.2,
        findARow_upsertA_ne _ _ _ _ _ _ _ (fun hcon => hnd.1 c h hcon.2.symm)]

theorem mem_upsert_of_ne (week ts : String) (inw : Bool) (cs : List AContribution)
    (tbl : List ARow) (r : ARow) (hr : r ∈ tbl)
    (hne : ∀ c ∈ cs, ¬(r.week_start = week ∧ r.mangabuff_id = c.mangabuff_id)) :
    r ∈ upsert_alliance_contributions week cs inw ts tbl := by
  induction cs generalizing tbl with
  | nil => exact hr
  | cons c cs ih =>
    rw [upsert_cons]
    exact ih _ (mem_upsertA_of_ne _ _ _ _ _ _ hr (hne c (List.mem_cons_self _ _)))
      (fun d hd => hne d (List.mem_cons_of_mem _ hd))

theorem filter_week_upsert (week ts w2 : String) (inw : Bool) (cs : List AContribution)
    (tbl : List ARow) (hw : w2 ≠ week) :
    (upsert_alliance_contributions week cs inw ts tbl).filter (weekKeyA w2) =
      tbl.filter (weekKeyA w2) := by
  induction cs generalizing tbl with
  | nil => rfl
  | cons c cs ih =>
    rw [upsert_cons, ih _, filter_week_upsertA _ _ _ _ _ _ hw]

theorem week_rows_upsert_ne (week ts w2 : String) (inw : Bool) (cs : List AContribution)
    (tbl : List ARow) (hw : w2 ≠ week) :
    get_alliance_week_rows w2 (upsert_alliance_contributions week cs inw ts tbl) =
      get_alliance_week_rows w2 tbl := by
  rw [get_alliance_week_rows, get_alliance_week_rows, filter_week_upsert _ _ _ _ _ _ hw]

theorem mem_week_rows (w : String) (tbl : List ARow) (r : ARow) (hr : r ∈ tbl)
    (hw : r.week_start = w) : r ∈ get_alliance_week_rows w tbl := by
  rw [get_alliance_week_rows, mem_sortByCurrentDesc, List.mem_filter]
  exact ⟨hr, (weekKeyA_true w r).mpr hw⟩

/-- A record parsed by parse_weekly_contributions (weekly_stats.py
lines 157-163). -/
structure WContribution where
  position : Int
  mangabuff_id : Int
  nick : String
  profile_url : String
  contribution : Int
deriving DecidableEq

/-- A row of the weekly_contributions table (weekly_stats.py lines 63-73). -/
structure WRow where
  week_start : String
  mangabuff_id : Int
  nick : String
  profile_url : String
  contribution : Int
  recorded_at : String
deriving DecidableEq

def keyW (w : String) (mid : Int) : WRow → Bool :=
  fun r => r.week_start == w && r.mangabuff_id == mid

def findWRow (tbl : List WRow) (w : String) (mid : Int) : Option WRow :=
  tbl.find? (keyW w mid)

/-- The DO UPDATE SET clause of save_weekly_contributions (lines 198-201):
nick, contribution and recorded_at. -/
def applyW (recorded_at : String) (c : WContribution) (r : WRow) : WRow :=
  { r with nick := c.nick, contribution := c.contribution, recorded_at := recorded_at }

def freshW (week_start recorded_at : String) (c : WContribution) : WRow :=
  ⟨week_start, c.mangabuff_id, c.nick, c.profile_url, c.contribution, recorded_at⟩

def upsertW (week_start recorded_at : String) (c : WContribution) : List WRow → List WRow
  | [] => [freshW week_start recorded_at c]
  | r :: rs =>
    if keyW week_start c.mangabuff_id r then applyW recorded_at c r :: rs
    else r :: upsertW week_start recorded_at c rs

/-- weekly_stats.save_weekly_contributions: one INSERT ... ON CONFLICT
statement per record. -/
def save_weekly_contributions (week_start : String) (contributions : List WContribution)
    (recorded_at : String) (tbl : List WRow) : List WRow :=
  contributions.foldl (fun t c => upsertW week_start recorded_at c t) tbl

theorem keyW_true (w : String) (mid : Int) (r : WRow) :
    keyW w mid r = true ↔ r.week_start = w ∧ r.mangabuff_id = mid := by
  simp [keyW]

theorem findWRow_upsertW_ne (week ts w2 : String) (mid2 : Int)
    (c : WContribution) (tbl : List WRow)
    (hne : ¬(w2 = week ∧ mid2 = c.mangabuff_id)) :
    findWRow (upsertW week ts c tbl) w2 mid2 = findWRow tbl w2 mid2 := by
  induction tbl with
  | nil =>
    have h : ¬ keyW w2 mid2 (freshW week ts c) = true := by
      rw [keyW_true]
      exact fun hh => hne ⟨hh.1.symm, hh.2.symm⟩
    rw [upsertW, findWRow, List.find?_cons_of_neg _ h]
    rfl
  | cons r rs ih =>
    rw [upsertW]
    split
    case isTrue hk =>
      have hk' := (keyW_true week c.mangabuff_id r).mp hk
      have h1 : ¬ keyW w2 mid2 (applyW ts c r) = true := by
        rw [keyW_true]
        exact fun hh => hne ⟨hh.1 ▸ hk'.1, hh.2 ▸ hk'.2⟩
      have h2 : ¬ keyW w2 mid2 r = true := by
        rw [keyW_true]
        exact fun hh => hne ⟨hh.1 ▸ hk'.1, hh.2 ▸ hk'.2⟩
      simp only [findWRow]
      rw [List.find?_cons_of_neg _ h1, List.find?_cons_of_neg _ h2]
    case isFalse hk =>
      by_cases hp : keyW w2 mid2 r = true
      · simp only [findWRow]
        rw [List.find?_cons_of_pos _ hp, List.find?_cons_of_pos _ hp]
      · simp only [findWRow] at ih ⊢
        rw [List.find?_cons_of_neg _ hp, List.find?_cons_of_neg _ hp]
        exact ih

theorem mem_upsertW_of_ne (week ts : String) (c : WContribution)
    (tbl : List WRow) (r : WRow) (hr : r ∈ tbl)
    (hne : ¬(r.week_start = week ∧ r.mangabuff_id = c.mangabuff_id)) :
    r ∈ upsertW week ts c tbl := by
  induction tbl with
  | nil => cases hr
  | cons x xs ih =>
    rw [upsertW]
    rcases List.mem_cons.mp hr with h | h
    · split
      case isTrue hk =>
        have hk' := (keyW_true week c.mangabuff_id x).mp hk
        exact absurd ⟨h ▸ hk'.1, h ▸ hk'.2⟩ hne
      case isFalse hk => exact h ▸ List.mem_cons_self _ _
    · split
      · exact List.mem_cons_of_mem _ h
      · exact List.mem_cons_of_mem _ (ih h)

theorem save_weekly_cons (week ts : String) (c : WContribution)
    (cs : List WContribution) (tbl : List WRow) :
    save_weekly_contributions week (c :: cs) ts tbl =
      save_weekly_contributions week cs ts (upsertW week ts c tbl) := rfl

theorem save_weekly_find_ne (week ts w2 : String) (mid2 : Int)
    (cs : List WContribution) (tbl : List WRow)
    (hne : ∀ c ∈ cs, ¬(w2 = week ∧ mid2 = c.mangabuff_id)) :
    findWRow (save_weekly_contributions week cs ts tbl) w2 mid2 = findWRow tbl w2 mid2 := by
  induction cs generalizing tbl with
  | nil => rfl
  | cons c cs ih =>
    rw [save_weekly_cons, ih _ (fun d hd => hne d (List.mem_cons_of_mem _ hd)),
      findWRow_upsertW_ne _ _ _ _ _ _ (hne c (List.mem_cons_self _ _))]

theorem mem_save_weekly_of_ne (week ts : String) (cs : List WContribution)
    (tbl : List WRow) (r : WRow) (hr : r ∈ tbl)
    (hne : ∀ c ∈ cs, ¬(r.week_start = week ∧ r.mangabuff_id = c.mangabuff_id)) :
    r ∈ save_weekly_contributions week cs ts tbl := by
  induction cs generalizing tbl with
  | nil => exact hr
  | cons c cs ih =>
    rw [save_weekly_cons]
    exact ih _ (mem_upsertW_of_ne _ _ _ _ _ hr (hne c (List.mem_cons_self _ _)))
      (fun d hd => hne d (List.mem_cons_of_mem _ hd))

/-- The contribution-initialisation step run once at startup of
alliance_monitor_loop (alliance_parser.py lines 244-254): when the first page
fetch parses to a nonempty record list, it is upserted with is_new_week := true
for the week computed at startup, regardless of whether the table already holds
rows for that week. -/
def alliance_monitor_startup_init (week_start : String) (contributions : List AContribution)
    (updated_at : String) (tbl : List ARow) : List ARow :=
  if contributions = [] then tbl
  else upsert_alliance_contributions week_start contributions true updated_at tbl

/-- C1: the claim says a ledger row's baseline is never modified while the
computed current week still equals the row's week_start, including process
restart mid-week.  The code violates this: on restart the startup step passes
is_new_week := true, whose DO UPDATE clause overwrites the existing baseline
with the freshly observed value.  Here a row for week 2026-02-16 with baseline
30 and current 45 is re-baselined to 50 by the startup step within the same
week, so the weekly delta collapses to zero. -/
theorem C1_restart_overwrites_baseline :
    (findARow [⟨"2026-02-16", 7, "E", "u", 30, 45, "t0"⟩] "2026-02-16" 7).map
        ARow.contribution_baseline = some 30 ∧
    (findARow (alliance_monitor_startup_init "2026-02-16" [⟨7, "E", "u", 50⟩] "t1"
        [⟨"2026-02-16", 7, "E", "u", 30, 45, "t0"⟩]) "2026-02-16" 7).map
        ARow.contribution_baseline = some 50 := by
  decide

/-- C2: a week upsert with is_new_week = false updates, for every entity of the
record list that already has a row for the week, only contribution_current plus
the auxiliary nick and updated_at columns, leaving contribution_baseline (and
profile_url) untouched; and for every entity with no row for the week it
inserts a row with baseline = current = the observed contribution. -/
theorem C2_midweek_upsert (tbl : List ARow) (W now : String) (R : List AContribution)
    (hnd : R.Pairwise (fun a b => a.mangabuff_id ≠ b.mangabuff_id)) :
    (∀ c ∈ R, ∀ r : ARow, findARow tbl W c.mangabuff_id = some r →
      findARow (upsert_alliance_contributions W R false now tbl) W c.mangabuff_id =
        some { r with nick := c.nick, contribution_current := c.contribution,
                      updated_at := now }) ∧
    (∀ c ∈ R, findARow tbl W c.mangabuff_id = none →
      findARow (upsert_alliance_contributions W R false now tbl) W c.mangabuff_id =
        some ⟨W, c.mangabuff_id, c.nick, c.profile_url, c.contribution, c.contribution, now⟩) := by
  constructor
  · intro c hc r hr
    rw [upsert_find_mem W now false R tbl c hc hnd, hr]
    simp [applyA]
  · intro c hc hr
    rw [upsert_find_mem W now false R tbl c hc hnd, hr]
    rfl

/-- C3: a week upsert for a new week W2 with is_new_week = true gives every
observed entity a (W2, entity) row with baseline = current = the observed
contribution, leaves every row of any other week byte-for-byte unchanged in the
table, and those rows stay retrievable through week_rows of their own week
(old weeks are never deleted). -/
theorem C3_new_week_upsert (tbl : List ARow) (W2 now : String) (R : List AContribution)
    (hnd : R.Pairwise (fun a b => a.mangabuff_id ≠ b.mangabuff_id)) :
    (∀ c ∈ R, ∃ r : ARow,
      findARow (upsert_alliance_contributions W2 R true now tbl) W2 c.mangabuff_id = some r ∧
      r.contribution_baseline = c.contribution ∧ r.contribution_current = c.contribution) ∧
    (∀ w, w ≠ W2 →
      get_alliance_week_rows w (upsert_alliance_contributions W2 R true now tbl) =
        get_alliance_week_rows w tbl) ∧
    (∀ r ∈ tbl, r.week_start ≠ W2 →
      r ∈ upsert_alliance_contributions W2 R true now tbl ∧
      r ∈ get_alliance_week_rows r.week_start
          (upsert_alliance_contributions W2 R true now tbl)) := by
  refine ⟨?_, ?_, ?_⟩
  · intro c hc
    rw [upsert_find_mem W2 now true R tbl c hc hnd]
    cases hfind : findARow tbl W2 c.mangabuff_id with
    | none => exact ⟨freshA W2 now c, rfl, rfl, rfl⟩
    | some r => exact ⟨applyA true now c r, rfl, by simp [applyA], by simp [applyA]⟩
  · intro w hw
    exact week_rows_upsert_ne W2 now w true R tbl hw
  · intro r hr hrw
    have hmem := mem_upsert_of_ne W2 now true R tbl r hr (fun c hc hcon => hrw hcon.1)
    exact ⟨hmem, mem_week_rows _ _ _ hmem rfl⟩

/-- C10: an entity that has a row for week W but does not occur in the record
list passed to a week upsert keeps its row completely unchanged — the row value
itself stays in the table, lookup by its key returns exactly what it returned
before, and (alliance side) the row still appears in week_rows W.  This holds
for the alliance upsert with either is_new_week flag and for the weekly
save_weekly_contributions. -/
theorem C10_absent_row_frame :
    (∀ (tbl : List ARow) (W now : String) (R : List AContribution) (inw : Bool) (r : ARow),
      r ∈ tbl → r.week_start = W → (∀ c ∈ R, c.mangabuff_id ≠ r.mangabuff_id) →
      r ∈ upsert_alliance_contributions W R inw now tbl ∧
      findARow (upsert_alliance_contributions W R inw now tbl) W r.mangabuff_id =
        findARow tbl W r.mangabuff_id ∧
      r ∈ get_alliance_week_rows W (upsert_alliance_contributions W R inw now tbl)) ∧
    (∀ (tbl : List WRow) (W now : String) (R : List WContribution) (r : WRow),
      r ∈ tbl → r.week_start = W → (∀ c ∈ R, c.mangabuff_id ≠ r.mangabuff_id) →
      r ∈ save_weekly_contributions W R now tbl ∧
      findWRow (save_weekly_contributions W R now tbl) W r.mangabuff_id =
        findWRow tbl W r.mangabuff_id) := by
  constructor
  · intro tbl W now R inw r hr hw habs
    have hmem := mem_upsert_of_ne W now inw R tbl r hr
      (fun c hc hcon => habs c hc (hcon.2.symm))
    exact ⟨hmem,
      upsert_find_ne W now W r.mangabuff_id inw R tbl
        (fun c hc hcon => habs c hc hcon.2.symm),
      mem_week_rows _ _ _ hmem hw⟩
  · intro tbl W now R r hr hw habs
    exact ⟨mem_save_weekly_of_ne W now R tbl r hr
        (fun c hc hcon => habs c hc (hcon.2.symm)),
      save_weekly_find_ne W now W r.mangabuff_id R tbl
        (fun c hc hcon => habs c hc hcon.2.symm)⟩

/-- Witness for C2 at the spec's own examples: mid-week growth E at 30 then 45
(baseline stays 30, current becomes 45), and mid-week new entity F at 12
(baseline = current = 12). -/
theorem C2_midweek_upsert_witness :
    findARow (upsert_alliance_contributions "2026-02-16" [⟨7, "E", "u", 45⟩] false "t1"
        [⟨"2026-02-16", 7, "E", "u", 30, 30, "t0"⟩]) "2026-02-16" 7 =
      some ⟨"2026-02-16", 7, "E", "u", 30, 45, "t1"⟩ ∧
    findARow (upsert_alliance_contributions "2026-02-16" [⟨8, "F", "v", 12⟩] false "t1" [])
        "2026-02-16" 8 = some ⟨"2026-02-16", 8, "F", "v", 12, 12, "t1"⟩ := by
  constructor
  · exact (C2_midweek_upsert [⟨"2026-02-16", 7, "E", "u", 30, 30, "t0"⟩] "2026-02-16" "t1"
      [⟨7, "E", "u", 45⟩] (by simp)).1 ⟨7, "E", "u", 45⟩ (by simp)
      ⟨"2026-02-16", 7, "E", "u", 30, 30, "t0"⟩ (by decide)
  · exact (C2_midweek_upsert [] "2026-02-16" "t1" [⟨8, "F", "v", 12⟩] (by simp)).2
      ⟨8, "F", "v", 12⟩ (by simp) (by decide)

/-- Witness for C3 at the spec's roll-over example: entity E at current 50 in
week 2026-02-16, then upserted at 70 into week 2026-02-23 with is_new_week =
true; the new week's row has baseline = current = 70 and the old week's row is
untouched and still listed by week_rows of the old week. -/
theorem C3_new_week_upsert_witness :
    (∃ r : ARow,
      findARow (upsert_alliance_contributions "2026-02-23" [⟨7, "E", "u", 70⟩] true "t2"
          [⟨"2026-02-16", 7, "E", "u", 20, 50, "t0"⟩]) "2026-02-23" 7 = some r ∧
      r.contribution_baseline = 70 ∧ r.contribution_current = 70) ∧
    get_alliance_week_rows "2026-02-16"
        (upsert_alliance_contributions "2026-02-23" [⟨7, "E", "u", 70⟩] true "t2"
          [⟨"2026-02-16", 7, "E", "u", 20, 50, "t0"⟩]) =
      get_alliance_week_rows "2026-02-16" [⟨"2026-02-16", 7, "E", "u", 20, 50, "t0"⟩] ∧
    (⟨"2026-02-16", 7, "E", "u", 20, 50, "t0"⟩ : ARow) ∈
      upsert_alliance_contributions "2026-02-23" [⟨7, "E", "u", 70⟩] true "t2"
        [⟨"2026-02-16", 7, "E", "u", 20, 50, "t0"⟩] := by
  have h := C3_new_week_upsert [⟨"2026-02-16", 7, "E", "u", 20, 50, "t0"⟩] "2026-02-23" "t2"
    [⟨7, "E", "u", 70⟩] (by simp)
  exact ⟨h.1 ⟨7, "E", "u", 70⟩ (by simp), h.2.1 "2026-02-16" (by decide),
    (h.2.2 ⟨"2026-02-16", 7, "E", "u", 20, 50, "t0"⟩ (by simp) (by decide)).1⟩

/-- Witness for C10: entity 7 has a row for the week and entity 8 alone is
observed; entity 7 keeps its row and stays in week_rows. -/
theorem C10_absent_row_frame_witness :
    ((⟨"2026-02-16", 7, "E", "u", 30, 45, "t0"⟩ : ARow) ∈
      upsert_alliance_contributions "2026-02-16" [⟨8, "F", "v", 12⟩] false "t1"
        [⟨"2026-02-16", 7, "E", "u", 30, 45, "t0"⟩] ∧
     (⟨"2026-02-16", 7, "E", "u", 30, 45, "t0"⟩ : ARow) ∈
      get_alliance_week_rows "2026-02-16"
        (upsert_alliance_contributions "2026-02-16" [⟨8, "F", "v", 12⟩] false "t1"
          [⟨"2026-02-16", 7, "E", "u", 30, 45, "t0"⟩])) ∧
    (⟨"2026-02-16", 7, "E", "w", 30, "s0"⟩ : WRow) ∈
      save_weekly_contributions "2026-02-16" [⟨1, 8, "F", "v", 12⟩] "s1"
        [⟨"2026-02-16", 7, "E", "w", 30, "s0"⟩] := by
  have ha := C10_absent_row_frame.1 [⟨"2026-02-16", 7, "E", "u", 30, 45, "t0"⟩] "2026-02-16"
    "t1" [⟨8, "F", "v", 12⟩] false ⟨"2026-02-16", 7, "E", "u", 30, 45, "t0"⟩
    (by simp) rfl (by decide)
  have hw := C10_absent_row_frame.2 [⟨"2026-02-16", 7, "E", "w", 30, "s0"⟩] "2026-02-16"
    "s1" [⟨1, 8, "F", "v", 12⟩] ⟨"2026-02-16", 7, "E", "w", 30, "s0"⟩
    (by simp) rfl (by decide)
  exact ⟨⟨ha.1, ha.2.2⟩, hw.1⟩

/-!
## Change fingerprint (weekly_stats.py lines 169-175;
alliance_weekly_stats.py lines 161-167)

The source joins one "mangabuff_id:contribution" piece per record with commas
and takes hashlib.md5 of the UTF-8 bytes; only the hexdigest is ever used, and
only for equality comparison, so the digest is modelled as the natural number
the 32-character hexdigest renders (an injective rendering).  MD5 itself is
implemented below in full (RFC 1321): padding, little-endian words, the 64
constants and shifts, four rounds per block.  The implementation agrees with
hashlib on test vectors (see the example after the definitions).
-/

def M32 : Nat := 4294967296

/-- Rotate the low 32 bits of x left by n: the two parts occupy disjoint bit
ranges, so their sum is their bitwise or. -/
def rotl32 (x n : Nat) : Nat := (x % M32) * 2 ^ n % M32 + x % M32 / 2 ^ (32 - n)

/-- The 64 MD5 sine constants, floor(abs(sin(i + 1)) * 2 ^ 32). -/
def md5K : List Nat :=
  [3614090360, 3905402710, 606105819, 3250441966, 4118548399, 1200080426, 2821735955,
   4249261313, 1770035416, 2336552879, 4294925233, 2304563134, 1804603682, 4254626195,
   2792965006, 1236535329, 4129170786, 3225465664, 643717713, 3921069994, 3593408605,
   38016083, 3634488961, 3889429448, 568446438, 3275163606, 4107603335, 1163531501,
   2850285829, 4243563512, 1735328473, 2368359562, 4294588738, 2272392833, 1839030562,
   4259657740, 2763975236, 1272893353, 4139469664, 3200236656, 681279174, 3936430074,
   3572445317, 76029189, 3654602809, 3873151461, 530742520, 3299628645, 4096336452,
   1126891415, 2878612391, 4237533241, 1700485571, 2399980690, 4293915773, 2240044497,
   1873313359, 4264355552, 2734768916, 1309151649, 4149444226, 3174756917, 718787259,
   3951481745]

/-- The per-round left-rotation amounts. -/
def md5S : List Nat :=
  [7, 12, 17, 22, 7, 12, 17, 22, 7, 12, 17, 22, 7, 12, 17, 22,
   5, 9, 14, 20, 5, 9, 14, 20, 5, 9, 14, 20, 5, 9, 14, 20,
   4, 11, 16, 23, 4, 11, 16, 23, 4, 11, 16, 23, 4, 11, 16, 23,
   6, 10, 15, 21, 6, 10, 15, 21, 6, 10, 15, 21, 6, 10, 15, 21]

def nthd (l : List Nat) (i : Nat) : Nat := l.getD i 0

/-- The four MD5 mixing functions; complement of a value below 2 ^ 32 is xor
with the all-ones mask. -/
def md5F (i b c d : Nat) : Nat :=
  if i < 16 then b &&& c ||| (b ^^^ 4294967295) &&& d
  else if i < 32 then d &&& b ||| (d ^^^ 4294967295) &&& c
  else if i < 48 then b ^^^ c ^^^ d
  else c ^^^ (b ||| (d ^^^ 4294967295))

/-- The message-word schedule. -/
def md5G (i : Nat) : Nat :=
  if i < 16 then i
  else if i < 32 then (5 * i + 1) % 16
  else if i < 48 then (3 * i + 5) % 16
  else 7 * i % 16

def md5Round (Mw : List Nat) (st : Nat × Nat × Nat × Nat) (i : Nat) : Nat × Nat × Nat × Nat :=
  let x := (st.1 + md5F i st.2.1 st.2.2.1 st.2.2.2 + nthd md5K i + nthd Mw (md5G i)) % M32
  (st.2.2.2, (st.2.1 + rotl32 x (nthd md5S i)) % M32, st.2.1, st.2.2.1)

/-- A 64-byte block as sixteen little-endian 32-bit words. -/
def md5WordsOf (blk : List Nat) : List Nat :=
  (List.range 16).map (fun j =>
    nthd blk (4 * j) + 256 * nthd blk (4 * j + 1) + 65536 * nthd blk (4 * j + 2) +
      16777216 * nthd blk (4 * j + 3))

def md5ProcessBlock (st : Nat × Nat × Nat × Nat) (blk : List Nat) : Nat × Nat × Nat × Nat :=
  let f := (List.range 64).foldl (md5Round (md5WordsOf blk)) st
  ((st.1 + f.1) % M32, (st.2.1 + f.2.1) % M32, (st.2.2.1 + f.2.2.1) % M32,
    (st.2.2.2 + f.2.2.2) % M32)

/-- Split into 64-byte blocks; the first argument is fuel bounding the
recursion depth and any value at least the list length is enough. -/
def md5Chunks : Nat → List Nat → List (List Nat)
  | 0, _ => []
  | _, [] => []
  | fuel + 1, l => l.take 64 :: md5Chunks fuel (l.drop 64)

/-- MD5 padding: a 0x80 byte, zeros to 56 mod 64, then the bit length as eight
little-endian bytes. -/
def md5Pad (msg : List Nat) : List Nat :=
  msg ++ 128 :: List.replicate ((119 - msg.length % 64) % 64) 0 ++
    (List.range 8).map (fun i => 8 * msg.length / 2 ^ (8 * i) % 256)

/-- The number rendered by the hexdigest: the four state words little-endian. -/
def md5Assemble (st : Nat × Nat × Nat × Nat) : Nat :=
  st.1 % M32 + st.2.1 % M32 * M32 + st.2.2.1 % M32 * (M32 * M32) +
    st.2.2.2 % M32 * (M32 * M32 * M32)

def md5Digest (msg : List Nat) : Nat :=
  md5Assemble ((md5Chunks (md5Pad msg).length (md5Pad msg)).foldl md5ProcessBlock
    (1732584193, 4023233417, 2562383102, 271733878))

/-- UTF-8 bytes of one character, as str.encode produces them. -/
def charUtf8 (c : Char) : List Nat :=
  let n := c.toNat
  if n < 128 then [n]
  else if n < 2048 then [192 + n / 64, 128 + n % 64]
  else if n < 65536 then [224 + n / 4096, 128 + n / 64 % 64, 128 + n % 64]
  else [240 + n / 262144, 128 + n / 4096 % 64, 128 + n / 64 % 64, 128 + n % 64]

def strBytes (s : String) : List Nat := (s.data.map charUtf8).flatten

/-- weekly_stats.compute_stats_hash: md5 of the comma-joined
"mangabuff_id:contribution" pieces. -/
def compute_stats_hash (contributions : List WContribution) : Nat :=
  md5Digest (strBytes (String.intercalate ","
    (contributions.map (fun c => toString c.mangabuff_id ++ ":" ++ toString c.contribution))))

/-- alliance_weekly_stats.compute_alliance_hash: the same digest over alliance
records. -/
def compute_alliance_hash (contributions : List AContribution) : Nat :=
  md5Digest (strBytes (String.intercalate ","
    (contributions.map (fun c => toString c.mangabuff_id ++ ":" ++ toString c.contribution))))

/-- The ordered (entity_id, contribution) pairs of a weekly record list. -/
def wPairs (l : List WContribution) : List (Int × Int) :=
  l.map (fun c => (c.mangabuff_id, c.contribution))

/-- The ordered (entity_id, contribution) pairs of an alliance record list. -/
def aPairs (l : List AContribution) : List (Int × Int) :=
  l.map (fun c => (c.mangabuff_id, c.contribution))

example : md5Digest (strBytes "1:10") = 13908767651095392319384760292644156651 := by decide

theorem md5Assemble_lt (st : Nat × Nat × Nat × Nat) : md5Assemble st < 2 ^ 128 := by
  rw [md5Assemble, M32]
  have h1 : st.1 % 4294967296 < 4294967296 := Nat.mod_lt _ (by omega)
  have h2 : st.2.1 % 4294967296 < 4294967296 := Nat.mod_lt _ (by omega)
  have h3 : st.2.2.1 % 4294967296 < 4294967296 := Nat.mod_lt _ (by omega)
  have h4 : st.2.2.2 % 4294967296 < 4294967296 := Nat.mod_lt _ (by omega)
  have hp : (2 : ℕ) ^ 128 = 340282366920938463463374607431768211456 := by norm_num
  rw [hp]
  omega

theorem md5Digest_lt (msg : List Nat) : md5Digest msg < 2 ^ 128 := by
  rw [md5Digest]
  exact md5Assemble_lt _

/-- C6, counterexample: the claim asserts fingerprints are equal exactly when
the ordered (entity_id, contribution) pairs are equal, in particular that any
pair difference changes the fingerprint.  That cannot hold: the digest ranges
over finitely many values (below 2 ^ 128) while the pair sequences are
infinite, so two record lists with different pairs share a fingerprint. -/
theorem C6_fingerprint_iff_negation :
    ¬ (∀ R R2 : List WContribution,
        compute_stats_hash R = compute_stats_hash R2 ↔ wPairs R = wPairs R2) := by
  intro hiff
  obtain ⟨n, m, hnm, hfeq⟩ := Finite.exists_ne_map_eq_of_infinite
    (fun k : ℕ => (⟨compute_stats_hash [⟨0, 0, "", "", (k : Int)⟩],
      md5Digest_lt _⟩ : Fin (2 ^ 128)))
  have hv : compute_stats_hash [⟨0, 0, "", "", (n : Int)⟩] =
      compute_stats_hash [⟨0, 0, "", "", (m : Int)⟩] := congrArg Fin.val hfeq
  have hp := (hiff _ _).mp hv
  simp only [wPairs, List.map_cons, List.map_nil, List.cons.injEq, Prod.mk.injEq] at hp
  exact hnm (by exact_mod_cast hp.1.2)

/-- C6, amended: the fingerprint is deterministic and is a function of the
ordered (entity_id, contribution) pairs alone — record lists with equal pair
sequences get equal fingerprints, so changes confined to display name, profile
URL or position never change it — for both the weekly and the alliance hash.
The original claim's converse direction (any pair difference changes the
fingerprint) is dropped: it fails by C6_fingerprint_iff_negation, because the
128-bit digest space is finite. -/
theorem C6_fingerprint_pairs :
    (∀ R : List WContribution, compute_stats_hash R = compute_stats_hash R) ∧
    (∀ R R2 : List WContribution, wPairs R = wPairs R2 →
      compute_stats_hash R = compute_stats_hash R2) ∧
    (∀ R R2 : List AContribution, aPairs R = aPairs R2 →
      compute_alliance_hash R = compute_alliance_hash R2) := by
  have hmapw : ∀ l : List WContribution,
      l.map (fun c => toString c.mangabuff_id ++ ":" ++ toString c.contribution) =
        (wPairs l).map (fun p => toString p.1 ++ ":" ++ toString p.2) := by
    intro l
    rw [wPairs, List.map_map]
    rfl
  have hmapa : ∀ l : List AContribution,
      l.map (fun c => toString c.mangabuff_id ++ ":" ++ toString c.contribution) =
        (aPairs l).map (fun p => toString p.1 ++ ":" ++ toString p.2) := by
    intro l
    rw [aPairs, List.map_map]
    rfl
  refine ⟨fun R => rfl, fun R R2 h => ?_, fun R R2 h => ?_⟩
  · rw [compute_stats_hash, compute_stats_hash, hmapw, hmapw, h]
  · rw [compute_alliance_hash, compute_alliance_hash, hmapa, hmapa, h]

/-- Witness for C6 (amended): two singleton lists differing only in position,
display name and profile URL have the same fingerprint. -/
theorem C6_fingerprint_pairs_witness :
    wPairs [⟨1, 7, "Alice", "u1", 42⟩] = wPairs [⟨2, 7, "Bob", "u2", 42⟩] ∧
    compute_stats_hash [⟨1, 7, "Alice", "u1", 42⟩] =
      compute_stats_hash [⟨2, 7, "Bob", "u2", 42⟩] := by
  refine ⟨by decide, ?_⟩
  exact C6_fingerprint_pairs.2.1 [⟨1, 7, "Alice", "u1", 42⟩] [⟨2, 7, "Bob", "u2", 42⟩]
    (by decide)

/-!
## Pinned-message reconciler (weekly_stats.py lines 247-279 and 343-430;
alliance_weekly_stats.py lines 262-294 and 362-437)

The Telegram transport is modelled by a world holding the existing messages
(id, text) and the next fresh message id.  bot.edit_message_text succeeds when
the message exists and its text differs, raises a TelegramError reading
"Message to edit not found" when the message is absent, and "Message is not
modified" when the text is byte-identical; bot.send_message appends a fresh
message.  Arbitrary transport faults (timeouts, flood control, ...) are
injected through the editFault / sendFault parameters: some e means the call
raises a TelegramError whose str() is e.  bot.pin_chat_message has no effect on
any modelled state and its failure is swallowed by the source, so it is not
represented.  A reconcile call returns the new world, the new pinned-message
table, the list of message ids an edit was attempted on, and the number of
send attempts.  The source catches every TelegramError, so the embedding is a
total function: no delivery error propagates to the caller.
-/

/-- A row of the pinned_weekly_message / pinned_alliance_weekly_message tables
(chat_id is UNIQUE). -/
structure PinnedRecord where
  chat_id : Int
  thread_id : Option Int
  message_id : Nat
  week_start : String
  updated_at : String
deriving DecidableEq

def chatKey (chat_id : Int) : PinnedRecord → Bool := fun r => r.chat_id == chat_id

/-- weekly_stats.get_pinned_message_info: SELECT * WHERE chat_id = ?. -/
def get_pinned_message_info (tbl : List PinnedRecord) (chat_id : Int) : Option PinnedRecord :=
  tbl.find? (chatKey chat_id)

/-- weekly_stats.save_pinned_message_info: INSERT ... ON CONFLICT(chat_id)
DO UPDATE SET thread_id, message_id, week_start, updated_at. -/
def save_pinned_message_info (chat_id : Int) (thread_id : Option Int) (message_id : Nat)
    (week_start updated_at : String) : List PinnedRecord → List PinnedRecord
  | [] => [⟨chat_id, thread_id, message_id, week_start, updated_at⟩]
  | r :: rs =>
    if chatKey chat_id r then ⟨chat_id, thread_id, message_id, week_start, updated_at⟩ :: rs
    else r :: save_pinned_message_info chat_id thread_id message_id week_start updated_at rs

/-- The modelled Telegram chat: existing messages and the next fresh id. -/
structure TgWorld where
  messages : List (Nat × String)
  nextId : Nat
deriving DecidableEq

def msgKey (mid : Nat) : Nat × String → Bool := fun p => p.1 == mid

def findMsg (msgs : List (Nat × String)) (mid : Nat) : Option String :=
  match msgs.find? (msgKey mid) with
  | some p => some p.2
  | none => none

def setMsg (mid : Nat) (text : String) : List (Nat × String) → List (Nat × String)
  | [] => []
  | p :: ps => if msgKey mid p then (mid, text) :: ps else p :: setMsg mid text ps

inductive EditOutcome where
  | ok (w : TgWorld)
  | errRaised (e : String)
deriving DecidableEq

def edit_message_text (editFault : Option String) (w : TgWorld) (mid : Nat) (text : String) :
    EditOutcome :=
  match editFault with
  | some e => .errRaised e
  | none =>
    match findMsg w.messages mid with
    | none => .errRaised "Message to edit not found"
    | some t =>
      if t = text then .errRaised "Message is not modified"
      else .ok { w with messages := setMsg mid text w.messages }

def send_message (sendFault : Option String) (w : TgWorld) (text : String) :
    Option (TgWorld × Nat) :=
  match sendFault with
  | some _ => none
  | none => some (⟨(w.nextId, text) :: w.messages, w.nextId + 1⟩, w.nextId)

def leadsWith : List Char → List Char → Bool
  | [], _ => true
  | _ :: _, [] => false
  | c :: cs, d :: ds => c == d && leadsWith cs ds

def hasSubChars (sub : List Char) : List Char → Bool
  | [] => sub.isEmpty
  | d :: ds => leadsWith sub (d :: ds) || hasSubChars sub ds

def containsSub (s sub : String) : Bool := hasSubChars sub.data s.data

/-- ASCII lowering of one character, as Python str.lower acts on the ASCII
error strings being matched. -/
def charLower (c : Char) : Char :=
  if 65 ≤ c.toNat ∧ c.toNat ≤ 90 then Char.ofNat (c.toNat + 32) else c

def strLower (s : String) : String := ⟨s.data.map charLower⟩

structure ReconcileResult where
  world : TgWorld
  table : List PinnedRecord
  edits : List Nat
  sends : Nat
deriving DecidableEq

/-- The first branch test on str(e).lower() (weekly_stats.py line 395):
substring match for "message to edit not found" or "message_id_invalid". -/
def errMatchesNotFound (e : String) : Bool :=
  containsSub (strLower e) "message to edit not found" ||
    containsSub (strLower e) "message_id_invalid"

/-- The second branch test (weekly_stats.py line 397): substring match for
"message is not modified". -/
def errMatchesNotModified (e : String) : Bool :=
  containsSub (strLower e) "message is not modified"

/-- The send-new-message block of send_or_update_weekly_pinned (lines 405-430):
send, best-effort pin, save the record; on a send error nothing is saved and
the call returns. -/
def sendPathWeekly (sendFault : Option String) (chat_id : Int) (thread_id : Option Int)
    (w : TgWorld) (tbl : List PinnedRecord) (week_start text now : String)
    (edits : List Nat) : ReconcileResult :=
  match send_message sendFault w text with
  | none => ⟨w, tbl, edits, 1⟩
  | some (w2, mid) =>
    ⟨w2, save_pinned_message_info chat_id thread_id mid week_start now tbl, edits, 1⟩

/-- weekly_stats.send_or_update_weekly_pinned: the pinned-message reconciler.
A stored record of a different week is discarded (treated as absent); an
existing record of the current week is edited, with the TelegramError string
classified as in the source; otherwise a new message is sent. -/
def send_or_update_weekly_pinned (editFault sendFault : Option String) (chat_id : Int)
    (thread_id : Option Int) (w : TgWorld) (tbl : List PinnedRecord)
    (week_start text now : String) : ReconcileResult :=
  let pinned_info := get_pinned_message_info tbl chat_id
  let pinned_info := match pinned_info with
    | some p => if p.week_start ≠ week_start then none else some p
    | none => none
  match pinned_info with
  | none => sendPathWeekly sendFault chat_id thread_id w tbl week_start text now []
  | some p =>
    match edit_message_text editFault w p.message_id text with
    | .ok w2 =>
      ⟨w2, save_pinned_message_info chat_id thread_id p.message_id week_start now tbl,
        [p.message_id], 0⟩
    | .errRaised e =>
      if errMatchesNotFound e
      then sendPathWeekly sendFault chat_id thread_id w tbl week_start text now [p.message_id]
      else if errMatchesNotModified e then ⟨w, tbl, [p.message_id], 0⟩
      else ⟨w, tbl, [p.message_id], 0⟩

theorem chatKey_true (chat_id : Int) (r : PinnedRecord) :
    chatKey chat_id r = true ↔ r.chat_id = chat_id := by
  simp [chatKey]

theorem get_save_pinned (chat_id : Int) (thread_id : Option Int) (mid : Nat)
    (wk now : String) (tbl : List PinnedRecord) :
    get_pinned_message_info (save_pinned_message_info chat_id thread_id mid wk now tbl)
      chat_id = some ⟨chat_id, thread_id, mid, wk, now⟩ := by
  induction tbl with
  | nil =>
    rw [save_pinned_message_info, get_pinned_message_info, List.find?_cons_of_pos]
    rw [chatKey_true]
  | cons r rs ih =>
    rw [save_pinned_message_info]
    split
    case isTrue hk =>
      rw [get_pinned_message_info, List.find?_cons_of_pos]
      rw [chatKey_true]
    case isFalse hk =>
      rw [get_pinned_message_info, List.find?_cons_of_neg _ hk]
      exact ih

theorem countP_save_pinned (chat_id : Int) (thread_id : Option Int) (mid : Nat)
    (wk now : String) (tbl : List PinnedRecord)
    (hc : tbl.countP (chatKey chat_id) ≤ 1) :
    (save_pinned_message_info chat_id thread_id mid wk now tbl).countP (chatKey chat_id) = 1 := by
  induction tbl with
  | nil => simp [save_pinned_message_info, chatKey]
  | cons r rs ih =>
    rw [save_pinned_message_info]
    split
    case isTrue hk =>
      rw [List.countP_cons, if_pos hk] at hc
      have hnew : chatKey chat_id (⟨chat_id, thread_id, mid, wk, now⟩ : PinnedRecord) = true := by
        rw [chatKey_true]
      rw [List.countP_cons, if_pos hnew]
      omega
    case isFalse hk =>
      rw [List.countP_cons, if_neg hk] at hc
      rw [List.countP_cons, if_neg hk]
      rw [Nat.add_zero] at hc ⊢
      exact ih (by omega)

theorem countP_pos_of_get_some (chat_id : Int) (tbl : List PinnedRecord) (p : PinnedRecord)
    (h : get_pinned_message_info tbl chat_id = some p) :
    0 < tbl.countP (chatKey chat_id) := by
  rw [List.countP_pos_iff]
  exact ⟨p, List.mem_of_find?_eq_some h, List.find?_some h⟩

theorem findMsg_setMsg (msgs : List (Nat × String)) (mid : Nat) (text : String) (t : String)
    (h : findMsg msgs mid = some t) :
    findMsg (setMsg mid text msgs) mid = some text := by
  induction msgs with
  | nil => simp [findMsg, List.find?] at h
  | cons p ps ih =>
    rw [setMsg]
    split
    case isTrue hk =>
      have hx : msgKey mid ((mid, text)) = true := by simp [msgKey]
      rw [findMsg, List.find?_cons_of_pos _ hx]
    case isFalse hk =>
      rw [findMsg, List.find?_cons_of_neg _ hk]
      rw [findMsg, List.find?_cons_of_neg _ hk] at h
      exact ih h

theorem errNotFound_self : errMatchesNotFound "Message to edit not found" = true := by
  decide

theorem errNotFound_notModified : errMatchesNotFound "Message is not modified" = false := by
  decide

theorem errNotModified_self : errMatchesNotModified "Message is not modified" = true := by
  decide

/-- After any reconcile call with a working transport, the chat owns exactly
one stored record, that record is for the requested week, its message now
carries the requested text, and at most one send was issued. -/
theorem weekly_reconcile_post (chat : Int) (thread : Option Int) (w : TgWorld)
    (tbl : List PinnedRecord) (week text now : String)
    (hc : tbl.countP (chatKey chat) ≤ 1) :
    (send_or_update_weekly_pinned none none chat thread w tbl week text now).table.countP
        (chatKey chat) = 1 ∧
    (∃ p, get_pinned_message_info
        (send_or_update_weekly_pinned none none chat thread w tbl week text now).table chat =
          some p ∧
      p.week_start = week ∧
      findMsg
        (send_or_update_weekly_pinned none none chat thread w tbl week text now).world.messages
        p.message_id = some text) ∧
    (send_or_update_weekly_pinned none none chat thread w tbl week text now).sends ≤ 1 := by
  have hsend : ∀ edits, sendPathWeekly none chat thread w tbl week text now edits =
      ⟨⟨(w.nextId, text) :: w.messages, w.nextId + 1⟩,
        save_pinned_message_info chat thread w.nextId week now tbl, edits, 1⟩ := by
    intro edits
    rfl
  have hfindNew : findMsg ((w.nextId, text) :: w.messages) w.nextId = some text := by
    have hx : msgKey w.nextId ((w.nextId, text)) = true := by simp [msgKey]
    rw [findMsg, List.find?_cons_of_pos _ hx]
  simp only [send_or_update_weekly_pinned]
  cases hget : get_pinned_message_info tbl chat with
  | none =>
    rw [hsend]
    exact ⟨countP_save_pinned _ _ _ _ _ _ hc, ⟨_, get_save_pinned _ _ _ _ _ _, rfl, hfindNew⟩,
      le_refl 1⟩
  | some p =>
    dsimp only
    by_cases hw : p.week_start = week
    case neg =>
      rw [if_pos hw, hsend]
      exact ⟨countP_save_pinned _ _ _ _ _ _ hc, ⟨_, get_save_pinned _ _ _ _ _ _, rfl, hfindNew⟩,
        le_refl 1⟩
    case pos =>
      rw [if_neg (show ¬(p.week_start ≠ week) from fun hh => hh hw)]
      dsimp only
      simp only [edit_message_text]
      cases hf : findMsg w.messages p.message_id with
      | none =>
        dsimp only
        rw [errNotFound_self, if_pos rfl, hsend]
        exact ⟨countP_save_pinned _ _ _ _ _ _ hc, ⟨_, get_save_pinned _ _ _ _ _ _, rfl, hfindNew⟩,
          le_refl 1⟩
      | some t =>
        dsimp only
        by_cases ht : t = text
        case pos =>
          rw [if_pos ht]
          dsimp only
          rw [errNotFound_notModified, if_neg (by simp), errNotModified_self, if_pos rfl]
          have h1 : tbl.countP (chatKey chat) = 1 := by
            have := countP_pos_of_get_some chat tbl p hget
            omega
          exact ⟨h1, ⟨p, hget, hw, ht ▸ hf⟩, Nat.zero_le 1⟩
        case neg =>
          rw [if_neg ht]
          dsimp only
          exact ⟨countP_save_pinned _ _ _ _ _ _ hc, ⟨_, get_save_pinned _ _ _ _ _ _, rfl,
            findMsg_setMsg _ _ _ _ hf⟩, Nat.zero_le 1⟩

/-- A reconcile call that finds a current-week record whose message already
carries the requested text is a no-op edit attempt: the transport answers
"Message is not modified" and the call returns changing nothing. -/
theorem weekly_reconcile_noop (chat : Int) (thread : Option Int) (w : TgWorld)
    (tbl : List PinnedRecord) (week text now : String) (p : PinnedRecord)
    (hget : get_pinned_message_info tbl chat = some p) (hweek : p.week_start = week)
    (hmsg : findMsg w.messages p.message_id = some text) :
    send_or_update_weekly_pinned none none chat thread w tbl week text now =
      ⟨w, tbl, [p.message_id], 0⟩ := by
  simp only [send_or_update_weekly_pinned]
  rw [hget]
  dsimp only
  rw [if_neg (show ¬(p.week_start ≠ week) from fun hh => hh hweek)]
  dsimp only
  simp only [edit_message_text]
  rw [hmsg]
  dsimp only
  rw [if_pos rfl]
  dsimp only
  rw [errNotFound_notModified, if_neg (by simp), errNotModified_self, if_pos rfl]

/-- alliance_weekly_stats.get_pinned_alliance_message (lines 262-272). -/
def get_pinned_alliance_message (tbl : List PinnedRecord) (chat_id : Int) :
    Option PinnedRecord :=
  tbl.find? (chatKey chat_id)

/-- alliance_weekly_stats.save_pinned_alliance_message (lines 275-294). -/
def save_pinned_alliance_message (chat_id : Int) (thread_id : Option Int) (message_id : Nat)
    (week_start updated_at : String) : List PinnedRecord → List PinnedRecord
  | [] => [⟨chat_id, thread_id, message_id, week_start, updated_at⟩]
  | r :: rs =>
    if chatKey chat_id r then ⟨chat_id, thread_id, message_id, week_start, updated_at⟩ :: rs
    else r :: save_pinned_alliance_message chat_id thread_id message_id week_start updated_at rs

def sendPathAlliance (sendFault : Option String) (chat_id : Int) (thread_id : Option Int)
    (w : TgWorld) (tbl : List PinnedRecord) (week_start text now : String)
    (edits : List Nat) : ReconcileResult :=
  match send_message sendFault w text with
  | none => ⟨w, tbl, edits, 1⟩
  | some (w2, mid) =>
    ⟨w2, save_pinned_alliance_message chat_id thread_id mid week_start now tbl, edits, 1⟩

/-- alliance_weekly_stats.send_or_update_alliance_pinned (lines 362-437), a
line-for-line duplicate of the weekly reconciler over its own table. -/
def send_or_update_alliance_pinned (editFault sendFault : Option String) (chat_id : Int)
    (thread_id : Option Int) (w : TgWorld) (tbl : List PinnedRecord)
    (week_start text now : String) : ReconcileResult :=
  let pinned_info := get_pinned_alliance_message tbl chat_id
  let pinned_info := match pinned_info with
    | some p => if p.week_start ≠ week_start then none else some p
    | none => none
  match pinned_info with
  | none => sendPathAlliance sendFault chat_id thread_id w tbl week_start text now []
  | some p =>
    match edit_message_text editFault w p.message_id text with
    | .ok w2 =>
      ⟨w2, save_pinned_alliance_message chat_id thread_id p.message_id week_start now tbl,
        [p.message_id], 0⟩
    | .errRaised e =>
      if errMatchesNotFound e
      then sendPathAlliance sendFault chat_id thread_id w tbl week_start text now [p.message_id]
      else if errMatchesNotModified e then ⟨w, tbl, [p.message_id], 0⟩
      else ⟨w, tbl, [p.message_id], 0⟩

theorem save_alliance_eq_weekly :
    @save_pinned_alliance_message = @save_pinned_message_info := by
  funext chat thread mid wk now tbl
  induction tbl with
  | nil => rfl
  | cons r rs ih =>
    rw [save_pinned_alliance_message, save_pinned_message_info]
    split
    · rfl
    · rw [ih]

theorem sendPath_alliance_eq_weekly : @sendPathAlliance = @sendPathWeekly := by
  funext sf chat thread w tbl week text now edits
  rw [sendPathAlliance, sendPathWeekly, save_alliance_eq_weekly]

/-- The alliance reconciler is extensionally the same function as the weekly
one, as the source duplicates the protocol verbatim. -/
theorem alliance_reconcile_eq_weekly :
    @send_or_update_alliance_pinned = @send_or_update_weekly_pinned := by
  funext ef sf chat thread w tbl week text now
  rw [send_or_update_alliance_pinned, send_or_update_weekly_pinned, save_alliance_eq_weekly,
    sendPath_alliance_eq_weekly]
  rfl

/-- C4: reconcile is idempotent.  Starting from any world and any table holding
at most one row for the chat (the UNIQUE constraint), two consecutive calls
with identical (chat_id, week_start, rendered_text) leave exactly one stored
row for the chat and issue at most one send in total; the second call sends
nothing, performs exactly one edit attempt (the no-op edit), creates no second
message (the world is unchanged) and no second row (the table is unchanged). -/
theorem C4_reconcile_idempotent (chat : Int) (thread : Option Int) (w : TgWorld)
    (tbl : List PinnedRecord) (week text now1 now2 : String)
    (hc : tbl.countP (chatKey chat) ≤ 1) :
    (send_or_update_weekly_pinned none none chat thread
      (send_or_update_weekly_pinned none none chat thread w tbl week text now1).world
      (send_or_update_weekly_pinned none none chat thread w tbl week text now1).table
      week text now2).table.countP (chatKey chat) = 1 ∧
    (send_or_update_weekly_pinned none none chat thread w tbl week text now1).sends +
      (send_or_update_weekly_pinned none none chat thread
        (send_or_update_weekly_pinned none none chat thread w tbl week text now1).world
        (send_or_update_weekly_pinned none none chat thread w tbl week text now1).table
        week text now2).sends ≤ 1 ∧
    (send_or_update_weekly_pinned none none chat thread
      (send_or_update_weekly_pinned none none chat thread w tbl week text now1).world
      (send_or_update_weekly_pinned none none chat thread w tbl week text now1).table
      week text now2).sends = 0 ∧
    (send_or_update_weekly_pinned none none chat thread
      (send_or_update_weekly_pinned none none chat thread w tbl week text now1).world
      (send_or_update_weekly_pinned none none chat thread w tbl week text now1).table
      week text now2).edits.length = 1 ∧
    (send_or_update_weekly_pinned none none chat thread
      (send_or_update_weekly_pinned none none chat thread w tbl week text now1).world
      (send_or_update_weekly_pinned none none chat thread w tbl week text now1).table
      week text now2).world =
      (send_or_update_weekly_pinned none none chat thread w tbl week text now1).world ∧
    (send_or_update_weekly_pinned none none chat thread
      (send_or_update_weekly_pinned none none chat thread w tbl week text now1).world
      (send_or_update_weekly_pinned none none chat thread w tbl week text now1).table
      week text now2).table =
      (send_or_update_weekly_pinned none none chat thread w tbl week text now1).table := by
  obtain ⟨hcount, ⟨p, hget, hweek, hmsg⟩, hsends⟩ :=
    weekly_reconcile_post chat thread w tbl week text now1 hc
  rw [weekly_reconcile_noop chat thread _ _ week text now2 p hget hweek hmsg]
  refine ⟨hcount, ?_, rfl, rfl, rfl, rfl⟩
  dsimp only
  omega

/-- Witness for C4: two identical reconcile calls against an empty chat and
empty table. -/
theorem C4_reconcile_idempotent_witness :
    (send_or_update_weekly_pinned none none 1 none
      (send_or_update_weekly_pinned none none 1 none ⟨[], 0⟩ [] "2026-02-16" "T" "t1").world
      (send_or_update_weekly_pinned none none 1 none ⟨[], 0⟩ [] "2026-02-16" "T" "t1").table
      "2026-02-16" "T" "t2").table.countP (chatKey 1) = 1 ∧
    (send_or_update_weekly_pinned none none 1 none ⟨[], 0⟩ [] "2026-02-16" "T" "t1").sends +
      (send_or_update_weekly_pinned none none 1 none
        (send_or_update_weekly_pinned none none 1 none ⟨[], 0⟩ [] "2026-02-16" "T" "t1").world
        (send_or_update_weekly_pinned none none 1 none ⟨[], 0⟩ [] "2026-02-16" "T" "t1").table
        "2026-02-16" "T" "t2").sends ≤ 1 := by
  have h := C4_reconcile_idempotent 1 none ⟨[], 0⟩ [] "2026-02-16" "T" "t1" "t2"
    (by decide)
  exact ⟨h.1, h.2.1⟩

/-- C5: a reconcile call whose week_start differs from the stored record's week
never edits the old message (the edit-attempt list is empty), sends exactly one
brand-new message (its id is the fresh id, not that of any existing message),
and stores a record whose week_start equals the week_start of the call — for
both the weekly and the alliance reconciler. -/
theorem C5_week_rollover (chat : Int) (thread : Option Int) (w : TgWorld)
    (tbl : List PinnedRecord) (week text now : String) (p : PinnedRecord)
    (hget : get_pinned_message_info tbl chat = some p) (hne : p.week_start ≠ week)
    (hwf : ∀ q ∈ w.messages, q.1 < w.nextId) :
    ((send_or_update_weekly_pinned none none chat thread w tbl week text now).edits = [] ∧
     (send_or_update_weekly_pinned none none chat thread w tbl week text now).sends = 1 ∧
     (∃ r, get_pinned_message_info
         (send_or_update_weekly_pinned none none chat thread w tbl week text now).table chat =
           some r ∧ r.week_start = week ∧ r.message_id = w.nextId) ∧
     w.nextId ∉ w.messages.map Prod.fst) ∧
    ((send_or_update_alliance_pinned none none chat thread w tbl week text now).edits = [] ∧
     (send_or_update_alliance_pinned none none chat thread w tbl week text now).sends = 1 ∧
     (∃ r, get_pinned_message_info
         (send_or_update_alliance_pinned none none chat thread w tbl week text now).table chat =
           some r ∧ r.week_start = week ∧ r.message_id = w.nextId)) := by
  have hfresh : w.nextId ∉ w.messages.map Prod.fst := by
    intro hmem
    obtain ⟨q, hq, hq2⟩ := List.mem_map.mp hmem
    exact absurd (hq2 ▸ hwf q hq) (lt_irrefl _)
  have hweekly : send_or_update_weekly_pinned none none chat thread w tbl week text now =
      ⟨⟨(w.nextId, text) :: w.messages, w.nextId + 1⟩,
        save_pinned_message_info chat thread w.nextId week now tbl, [], 1⟩ := by
    simp only [send_or_update_weekly_pinned]
    rw [hget]
    dsimp only
    rw [if_pos hne]
    rfl
  refine ⟨?_, ?_⟩
  · rw [hweekly]
    exact ⟨rfl, rfl, ⟨_, get_save_pinned _ _ _ _ _ _, rfl, rfl⟩, hfresh⟩
  · rw [alliance_reconcile_eq_weekly, hweekly]
    exact ⟨rfl, rfl, ⟨_, get_save_pinned _ _ _ _ _ _, rfl, rfl⟩⟩

/-- Witness for C5: stored record for week 2026-02-09 points at message 5; the
call for week 2026-02-16 edits nothing, sends message 6 and stores it. -/
theorem C5_week_rollover_witness :
    (send_or_update_weekly_pinned none none 1 none ⟨[(5, "old")], 6⟩
      [⟨1, none, 5, "2026-02-09", "t0"⟩] "2026-02-16" "T" "t1").edits = [] ∧
    (send_or_update_weekly_pinned none none 1 none ⟨[(5, "old")], 6⟩
      [⟨1, none, 5, "2026-02-09", "t0"⟩] "2026-02-16" "T" "t1").sends = 1 ∧
    (∃ r, get_pinned_message_info
        (send_or_update_weekly_pinned none none 1 none ⟨[(5, "old")], 6⟩
          [⟨1, none, 5, "2026-02-09", "t0"⟩] "2026-02-16" "T" "t1").table 1 = some r ∧
      r.week_start = "2026-02-16" ∧ r.message_id = 6) := by
  have h := C5_week_rollover 1 none ⟨[(5, "old")], 6⟩ [⟨1, none, 5, "2026-02-09", "t0"⟩]
    "2026-02-16" "T" "t1" ⟨1, none, 5, "2026-02-09", "t0"⟩ (by decide) (by decide)
    (by decide)
  exact ⟨h.1.1, h.1.2.1, h.1.2.2.1⟩

/-- C7: reconcile never propagates a delivery error — the embedding is a total
function and every branch below returns normally.  An edit failure matching the
"not found" patterns falls through to the send block (recreation via exactly
one fresh send attempt); a failure matching "not modified" is treated as
success, changing nothing; every other edit failure only logs and returns,
changing nothing; a send failure returns with nothing saved; and the alliance
reconciler behaves identically to the weekly one on every input. -/
theorem C7_delivery_errors :
    (∀ (chat : Int) (thread : Option Int) (w : TgWorld) (tbl : List PinnedRecord)
        (week text now : String) (p : PinnedRecord) (e : String) (sf : Option String),
      get_pinned_message_info tbl chat = some p → p.week_start = week →
      errMatchesNotFound e = true →
      send_or_update_weekly_pinned (some e) sf chat thread w tbl week text now =
        sendPathWeekly sf chat thread w tbl week text now [p.message_id] ∧
      (send_or_update_weekly_pinned (some e) sf chat thread w tbl week text now).sends = 1) ∧
    (∀ (chat : Int) (thread : Option Int) (w : TgWorld) (tbl : List PinnedRecord)
        (week text now : String) (p : PinnedRecord) (e : String) (sf : Option String),
      get_pinned_message_info tbl chat = some p → p.week_start = week →
      errMatchesNotFound e = false → errMatchesNotModified e = true →
      send_or_update_weekly_pinned (some e) sf chat thread w tbl week text now =
        ⟨w, tbl, [p.message_id], 0⟩) ∧
    (∀ (chat : Int) (thread : Option Int) (w : TgWorld) (tbl : List PinnedRecord)
        (week text now : String) (p : PinnedRecord) (e : String) (sf : Option String),
      get_pinned_message_info tbl chat = some p → p.week_start = week →
      errMatchesNotFound e = false → errMatchesNotModified e = false →
      send_or_update_weekly_pinned (some e) sf chat thread w tbl week text now =
        ⟨w, tbl, [p.message_id], 0⟩) ∧
    (∀ (chat : Int) (thread : Option Int) (w : TgWorld) (tbl : List PinnedRecord)
        (week text now : String) (e2 : String),
      get_pinned_message_info tbl chat = none →
      send_or_update_weekly_pinned none (some e2) chat thread w tbl week text now =
        ⟨w, tbl, [], 1⟩) ∧
    (∀ (ef sf : Option String) (chat : Int) (thread : Option Int) (w : TgWorld)
        (tbl : List PinnedRecord) (week text now : String),
      send_or_update_alliance_pinned ef sf chat thread w tbl week text now =
        send_or_update_weekly_pinned ef sf chat thread w tbl week text now) := by
  refine ⟨?_, ?_, ?_, ?_, ?_⟩
  · intro chat thread w tbl week text now p e sf hget hweek hm
    have hx : send_or_update_weekly_pinned (some e) sf chat thread w tbl week text now =
        sendPathWeekly sf chat thread w tbl week text now [p.message_id] := by
      simp only [send_or_update_weekly_pinned]
      rw [hget]
      dsimp only
      rw [if_neg (show ¬(p.week_start ≠ week) from fun hh => hh hweek)]
      dsimp only [edit_message_text]
      rw [hm, if_pos rfl]
    refine ⟨hx, ?_⟩
    rw [hx, sendPathWeekly]
    cases sf with
    | none => rfl
    | some e2 => rfl
  · intro chat thread w tbl week text now p e sf hget hweek hm1 hm2
    simp only [send_or_update_weekly_pinned]
    rw [hget]
    dsimp only
    rw [if_neg (show ¬(p.week_start ≠ week) from fun hh => hh hweek)]
    dsimp only [edit_message_text]
    rw [hm1, if_neg (by simp), hm2, if_pos rfl]
  · intro chat thread w tbl week text now p e sf hget hweek hm1 hm2
    simp only [send_or_update_weekly_pinned]
    rw [hget]
    dsimp only
    rw [if_neg (show ¬(p.week_start ≠ week) from fun hh => hh hweek)]
    dsimp only [edit_message_text]
    rw [hm1, if_neg (by simp), hm2, if_neg (by simp)]
  · intro chat thread w tbl week text now e2 hget
    simp only [send_or_update_weekly_pinned]
    rw [hget]
    rfl
  · intro ef sf chat thread w tbl week text now
    rw [alliance_reconcile_eq_weekly]

/-- Witness for C7 at a transport error matching neither pattern: the call
returns with world and table unchanged and no send issued. -/
theorem C7_delivery_errors_witness :
    errMatchesNotFound "Flood control exceeded" = false ∧
    errMatchesNotModified "Flood control exceeded" = false ∧
    send_or_update_weekly_pinned (some "Flood control exceeded") none 1 none
        ⟨[(5, "T")], 6⟩ [⟨1, none, 5, "2026-02-16", "t0"⟩] "2026-02-16" "T" "t1" =
      ⟨⟨[(5, "T")], 6⟩, [⟨1, none, 5, "2026-02-16", "t0"⟩], [5], 0⟩ := by
  refine ⟨by decide, by decide, ?_⟩
  exact C7_delivery_errors.2.2.1 1 none ⟨[(5, "T")], 6⟩ [⟨1, none, 5, "2026-02-16", "t0"⟩]
    "2026-02-16" "T" "t1" ⟨1, none, 5, "2026-02-16", "t0"⟩ "Flood control exceeded" none
    (by decide) rfl (by decide) (by decide)

/-!
## Poll-loop failure escalation (parser.py lines 237-244 and 356-373;
main.py lines 77-106; proxy_manager.py lines 70-78)

bot_data is the dictionary main.py fills at startup; its values are modelled by
a small sum type.  The failure branch of parse_loop runs after a failed parse:
it increments the consecutive-failure counter and, at the threshold, looks up
"proxy_manager" in bot_data (guarded by hasattr(session, "_session") and a
broad except), calls its mark_failure when present, and resets the counter.
-/

/-- The ProxyManager state touched by mark_failure (proxy_manager.py
lines 16-25); the failed-proxies set is carried along untouched. -/
structure ProxyManager where
  enabled : Bool
  current_proxy : Option String
  failed_proxies : List String
  consecutive_failures : Nat
deriving DecidableEq

/-- proxy_manager.ProxyManager.mark_failure: increments the consecutive-failure
counter (the warning log at the threshold changes no state). -/
def ProxyManager.mark_failure (pm : ProxyManager) : ProxyManager :=
  { pm with consecutive_failures := pm.consecutive_failures + 1 }

/-- The values main.py places into application.bot_data. -/
inductive BotDataValue where
  | sessionVal
  | rankDetectorVal
  | proxyManagerVal (pm : ProxyManager)
deriving DecidableEq

/-- application.bot_data as populated by main.py lines 105-106: only "session"
and "rank_detector" are ever stored; no "proxy_manager" key is written anywhere
in the program. -/
def main_bot_data : List (String × BotDataValue) :=
  [("session", BotDataValue.sessionVal), ("rank_detector", BotDataValue.rankDetectorVal)]

def bot_data_get (bd : List (String × BotDataValue)) (k : String) : Option BotDataValue :=
  match bd.find? (fun p => p.1 == k) with
  | some p => some p.2
  | none => none

/-- parse_loop's threshold, max_consecutive_failures (parser.py line 238). -/
def max_consecutive_failures : Nat := 5

/-- One failed iteration of parse_loop (parser.py lines 356-373): the counter
is incremented; at the threshold, mark_failure is invoked only when the session
has an underlying "_session" attribute and bot_data holds a ProxyManager under
"proxy_manager", and the counter is reset to zero either way.  Returns the new
counter and whether ProxyManager.mark_failure was actually invoked. -/
def parse_loop_failure_step (hasUnderlyingSession : Bool)
    (bd : List (String × BotDataValue)) (consecutive_failures : Nat) : Nat × Bool :=
  let cf := consecutive_failures + 1
  if max_consecutive_failures ≤ cf then
    (0,
      if hasUnderlyingSession then
        match bot_data_get bd "proxy_manager" with
        | some (BotDataValue.proxyManagerVal _) => true
        | _ => false
      else false)
  else (cf, false)

/-- C8: the claim says that when the consecutive-failure count reaches the
threshold of five, the loop actually invokes the rotation collaborator's
mark_failure and resets the counter.  The code resets the counter but can never
invoke mark_failure as wired: main.py never stores a "proxy_manager" key in
bot_data, so the lookup is none no matter whether the hasattr guard passes.
The fifth consecutive failure therefore yields counter 0 and no invocation,
and mark_failure itself (which would increment the proxy manager's own
counter) is dead code in this path. -/
theorem C8_mark_failure_never_invoked :
    (∀ hasU : Bool, parse_loop_failure_step hasU main_bot_data 4 = (0, false)) ∧
    bot_data_get main_bot_data "proxy_manager" = none ∧
    (∀ pm : ProxyManager,
      (ProxyManager.mark_failure pm).consecutive_failures = pm.consecutive_failures + 1) := by
  refine ⟨fun hasU => ?_, rfl, fun pm => rfl⟩
  cases hasU <;> rfl
